import Mathlib

/-!
Verification of the vault file-manipulation and search-indexing core of the
vault-commander repository. File contents are modelled as lists of characters,
the filesystem as an association list from absolute path strings to file data,
and the stateful TypeScript operations as explicit state-passing functions.
Thrown JS exceptions are modelled with `Except`; writes performed before a
throw persist in the returned state, as they do on a real filesystem.
-/

/-- File text, modelled byte-for-byte as a list of characters. -/
abbrev Str := List Char

/-- Model of JS `String.prototype.indexOf(needle)`: index of the first literal
occurrence of `needle` in `hay`, scanning position by position. An empty
needle matches at index 0, as in JS. -/
def strIndexOf (hay needle : Str) : Option Nat :=
  if needle <+: hay then some 0
  else
    match hay with
    | [] => none
    | _ :: t => (strIndexOf t needle).map (· + 1)

/-- Index of the first occurrence of a single character. -/
def idxOfChar (c : Char) : Str → Option Nat
  | [] => none
  | b :: t => if b = c then some 0 else (idxOfChar c t).map (· + 1)

/-- Model of JS `String.prototype.indexOf(char, start)`: first occurrence of
`c` at or after position `start`. -/
def charIdxFrom (hay : Str) (c : Char) (start : Nat) : Option Nat :=
  (idxOfChar c (hay.drop start)).map (· + start)

/-- Model of JS `String.prototype.trim()`. -/
def trimStr (s : Str) : Str :=
  ((s.dropWhile Char.isWhitespace).reverse.dropWhile Char.isWhitespace).reverse

/-- Lower-case every character (JS `toLowerCase` on ASCII names). -/
def lowerStr (s : Str) : Str := s.map Char.toLower

/-- Index of the last occurrence of a character. -/
def lastIdxOf (c : Char) (s : Str) : Option Nat :=
  (idxOfChar c s.reverse).map (fun i => s.length - 1 - i)

/-- Model of node `path.dirname` on already-normalized absolute paths. -/
def dirnameOf (p : String) : String :=
  match lastIdxOf '/' p.data with
  | none => "."
  | some 0 => "/"
  | some i => String.mk (p.data.take i)

/-- Model of node `path.basename` (no extension stripping). -/
def basenameOf (p : String) : String :=
  match lastIdxOf '/' p.data with
  | none => p
  | some i => String.mk (p.data.drop (i + 1))

/-- Model of node `path.join` for the clean two-segment joins the code uses. -/
def joinPath (a b : String) : String := a ++ "/" ++ b

/-- JS `startsWith`, character-based. -/
def startsWithStr (s pre : String) : Bool := pre.data.isPrefixOf s.data

/-- JS `endsWith`, character-based. -/
def endsWithStr (s ext : String) : Bool := ext.data.isSuffixOf s.data

/-- Model of node `path.extname`: the suffix from the last dot of the base
name, empty when there is no dot or the dot leads the name. -/
def extnameOf (p : String) : String :=
  let base := basenameOf p
  match lastIdxOf '.' base.data with
  | none => ""
  | some 0 => ""
  | some i => String.mk (base.data.drop i)

/-- Model of node `path.basename(p, ext)`: strips `ext` when it is a proper
suffix of the base name. -/
def basenameSuffix (p : String) (ext : String) : String :=
  let base := basenameOf p
  if base != ext && endsWithStr base ext then
    String.mk (base.data.take (base.length - ext.length))
  else base

/-- A JS `Date`, carrying both the epoch-milliseconds view (used by
`getTime`/`mtimeMs` arithmetic) and the local calendar view (used by the
dayjs formatter). The two views are independent fields because the real
conversion involves the host time zone, which is outside the model. -/
structure Date where
  epochMs : Int
  year : Nat
  month : Nat
  day : Nat
  hour : Nat
  minute : Nat
  second : Nat
  weekday : Nat
deriving DecidableEq, Repr

/-- Left-pad a decimal numeral with zeros to width `k`. -/
def padTo (k : Nat) (n : Nat) : Str :=
  let s := (toString n).data
  List.replicate (k - s.length) '0' ++ s

/-- Two-digit zero padding, as dayjs `MM`, `DD`, `HH`, `mm`, `ss`. -/
def pad2 (n : Nat) : Str := padTo 2 n

/-- dayjs `ddd` weekday abbreviations. -/
def weekdayShort : Nat → Str
  | 0 => ("Sun").data
  | 1 => ("Mon").data
  | 2 => ("Tue").data
  | 3 => ("Wed").data
  | 4 => ("Thu").data
  | 5 => ("Fri").data
  | 6 => ("Sat").data
  | _ => []

/-- dayjs `h` token: 12-hour clock hour in 1..12. -/
def hour12 (h : Nat) : Nat := if h % 12 = 0 then 12 else h % 12

/-- The dayjs format tokens the repository uses (`YYYY-MM-DD-ddd`,
`YYYY-MM-DD-HHmmss`, `h:mma`); every other character passes through. -/
def formatDateChars : Str → Date → Str
  | [], _ => []
  | 'Y' :: 'Y' :: 'Y' :: 'Y' :: rest, d => padTo 4 d.year ++ formatDateChars rest d
  | 'M' :: 'M' :: rest, d => pad2 d.month ++ formatDateChars rest d
  | 'D' :: 'D' :: rest, d => pad2 d.day ++ formatDateChars rest d
  | 'd' :: 'd' :: 'd' :: rest, d => weekdayShort (d.weekday % 7) ++ formatDateChars rest d
  | 'H' :: 'H' :: rest, d => pad2 d.hour ++ formatDateChars rest d
  | 'm' :: 'm' :: rest, d => pad2 d.minute ++ formatDateChars rest d
  | 's' :: 's' :: rest, d => pad2 d.second ++ formatDateChars rest d
  | 'h' :: rest, d => (toString (hour12 d.hour)).data ++ formatDateChars rest d
  | 'a' :: rest, d => (if d.hour < 12 then ("am") else ("pm")).data ++ formatDateChars rest d
  | c :: rest, d => c :: formatDateChars rest d

/-- `dayjs(date).format(fmt)` as used by the repository. -/
def dayjsFormat (date : Date) (format : String) : String :=
  String.mk (formatDateChars format.data date)

/-- daily.ts `formatDailyNoteDate`. -/
def formatDailyNoteDate (date : Date) (format : String) : String :=
  dayjsFormat date format

/-- daily.ts `getDailyNoteTemplate`: the fixed 7-section template. -/
def getDailyNoteTemplate : Str :=
  ("## Schedule\n\n## Tasks\n\n## Running\n\n## Meeting Notes\n\n## Voice Notes\n\n## Notes\n\n## Evening Review\n").data

/-- daily.ts `getDailyNoteLink`: a wikilink wrapping the formatted date. -/
def getDailyNoteLink (date : Date) (format : String) : Str :=
  ("[[" ++ formatDailyNoteDate date format ++ "]]").data

/-- daily.ts `getTimestamp`: `h:mma`-formatted time. -/
def getTimestamp (date : Date) : Str :=
  formatDateChars ("h:mma").data date

/-- types.ts `SectionConfig`: the 7 configured section header markers. -/
structure SectionConfig where
  schedule : Str
  tasks : Str
  running : Str
  meetingNotes : Str
  voiceNotes : Str
  notes : Str
  eveningReview : Str
deriving DecidableEq, Repr

/-- config.ts `DEFAULT_SECTIONS`. -/
def DEFAULT_SECTIONS : SectionConfig :=
  { schedule := ("## Schedule").data
    tasks := ("## Tasks").data
    running := ("## Running").data
    meetingNotes := ("## Meeting Notes").data
    voiceNotes := ("## Voice Notes").data
    notes := ("## Notes").data
    eveningReview := ("## Evening Review").data }

/-- types.ts `VaultCommanderConfig`, restricted to the core fields the
verified operations read. -/
structure VaultCommanderConfig where
  vaultPath : String
  dailyNotePath : String
  dailyNoteFormat : String
  inboxPath : String
  sections : SectionConfig
deriving DecidableEq, Repr

/-- daily.ts `getDailyNotePath`. -/
def getDailyNotePath (config : VaultCommanderConfig) (date : Date) : String :=
  let dateString := formatDailyNoteDate date config.dailyNoteFormat
  joinPath (joinPath config.vaultPath config.dailyNotePath) (dateString ++ ".md")

/-- A file on disk: its content and modification time. -/
structure FileData where
  content : Str
  mtime : Date
deriving DecidableEq, Repr

/-- The filesystem: an association list from absolute path to file data, in
directory-enumeration order. -/
abbrev FS := List (String × FileData)

/-- Look a path up (first matching entry). -/
def lookupFS : FS → String → Option FileData
  | [], _ => none
  | e :: rest, p => if e.1 = p then some e.2 else lookupFS rest p

/-- vault.ts `fileExists` (node `existsSync`). -/
def fileExists (fs : FS) (p : String) : Bool := (lookupFS fs p).isSome

/-- The modification stamp given to written files. No verified property reads
the mtime of a file after writing it, so the wall-clock value is fixed. -/
def mtimeZero : Date := ⟨0, 1970, 1, 1, 0, 0, 0, 4⟩

/-- vault.ts `writeFile` / node `writeFileSync`: overwrite the existing entry
or create a new one. (Parent-directory creation has no effect on the
path-to-content map.) -/
def writeF : FS → String → Str → FS
  | [], p, c => [(p, ⟨c, mtimeZero⟩)]
  | e :: rest, p, c =>
    if e.1 = p then (p, ⟨c, mtimeZero⟩) :: rest else e :: writeF rest p c

/-- Remove every entry at a path. -/
def removeF : FS → String → FS
  | [], _ => []
  | e :: rest, p => if e.1 = p then removeF rest p else e :: removeF rest p

/-- Errors the core raises (JS throws classified by their source sites). -/
inductive VaultError where
  | notFound (path : String)
  | sectionNotFound (sectionHeader : Str)
  | alreadyArchived (archivePath : String)
deriving DecidableEq, Repr

deriving instance DecidableEq for Except

/-- node `renameSync`: fails when the source is absent; silently replaces any
existing destination (POSIX rename semantics). -/
def renameF (fs : FS) (src dst : String) : Except VaultError FS :=
  match lookupFS fs src with
  | none => Except.error (VaultError.notFound src)
  | some d => Except.ok (removeF (removeF fs src) dst ++ [(dst, d)])

/-- node `readdirSync`: base names of the entries directly inside a
directory, in filesystem order. A missing directory and an empty directory
both enumerate to `[]`; the call sites below reach this only inside
try/catch blocks that turn the thrown error into `[]` anyway. -/
def readdirF (fs : FS) (dirPath : String) : List String :=
  (fs.filter (fun e => dirnameOf e.1 == dirPath)).map (fun e => basenameOf e.1)

/-- vault.ts `ensureDailyNote`: create today's note from the template when
missing; return the computed path either way. -/
def ensureDailyNote (config : VaultCommanderConfig) (date : Date) (fs : FS) : String × FS :=
  let path := getDailyNotePath config date
  if fileExists fs path then (path, fs)
  else (path, writeF fs path getDailyNoteTemplate)

/-- vault.ts `appendToSection`: read the file, find the first occurrence of
the marker (throwing when absent), and splice a newline plus the content in
at the first newline after the marker (or directly after the marker when no
newline follows). -/
def appendToSection (fs : FS) (filePath : String) (sectionHeader : Str) (content : Str) :
    Except VaultError Unit × FS :=
  match lookupFS fs filePath with
  | none => (Except.error (VaultError.notFound filePath), fs)
  | some fd =>
    match strIndexOf fd.content sectionHeader with
    | none => (Except.error (VaultError.sectionNotFound sectionHeader), fs)
    | some headerIndex =>
      let afterHeader := headerIndex + sectionHeader.length
      let insertPoint := (charIdxFrom fd.content '\n' afterHeader).getD afterHeader
      (Except.ok (),
        writeF fs filePath
          (fd.content.take insertPoint ++ '\n' :: content ++ fd.content.drop insertPoint))

/-- Insert into a sorted list, keeping existing equal elements first. -/
def sortInsert (le : α → α → Bool) (a : α) : List α → List α
  | [] => [a]
  | b :: t => if le a b then a :: b :: t else b :: sortInsert le a t

/-- Stable insertion sort, modelling JS `Array.prototype.sort` with a
comparator (stable since ES2019). -/
def sortByLe (le : α → α → Bool) : List α → List α
  | [] => []
  | a :: t => sortInsert le a (sortByLe le t)

/-- Extensions accepted by the meeting-note scanner. -/
def MEETING_EXTENSIONS : List String := [".md", ".txt"]

/-- Extensions accepted by the voice-transcription scanner. -/
def TRANSCRIPTION_EXTENSIONS : List String := [".txt", ".md"]

/-- The reserved archive marker prepended to imported source files
(`IMPORTED_PREFIX` in meeting.ts and voice.ts). -/
def importedMarker : String := ".imported-"

/-- meeting.ts `MeetingNoteFile`. -/
structure MeetingNoteFile where
  filename : String
  path : String
  content : Str
  timestamp : Date
  title : Str
deriving DecidableEq, Repr

/-- meeting.ts `MeetingImportResult`. -/
structure MeetingImportResult where
  source : MeetingNoteFile
  dailyNotePath : String
deriving DecidableEq, Repr

/-- meeting.ts `BulkMeetingImportResult`: partial-success outcome. -/
structure BulkMeetingImportResult where
  results : List MeetingImportResult
  errors : List (MeetingNoteFile × VaultError)
deriving DecidableEq, Repr

/-- The capture group of the JS regex `/^#+\s*(.+)/` applied to a single
line, including its backtracking behavior: the maximal run of leading
hashes, then maximal whitespace, then the non-empty remainder; when the
greedy runs leave nothing for `(.+)`, the engine backtracks one character. -/
def headerMatchCapture (line : Str) : Option Str :=
  let hashes := line.takeWhile (fun c => c == '#')
  let rest2 := line.dropWhile (fun c => c == '#')
  if hashes.isEmpty then none
  else if rest2.isEmpty then
    if 2 ≤ hashes.length then some ['#'] else none
  else
    let rem := rest2.dropWhile Char.isWhitespace
    if rem.isEmpty then
      match rest2.getLast? with
      | some c => some [c]
      | none => none
    else some rem

/-- meeting.ts: strip a `.md`/`.txt` extension (case-insensitive) from a
filename, per the regex replace in `extractTitle`. -/
def stripMeetingExt (filename : String) : Str :=
  let cs := filename.data
  let low := String.mk (lowerStr cs)
  if endsWithStr low ".md" then cs.take (cs.length - 3)
  else if endsWithStr low ".txt" then cs.take (cs.length - 4)
  else cs

/-- meeting.ts `extractTitle`: title from the first non-blank line (header
text when it is a Markdown heading, the line itself when under 100
characters), else the filename stem. -/
def extractTitle (content : Str) (filename : String) : Str :=
  let lines := (content.splitOn '\n').filter (fun line => !(trimStr line).isEmpty)
  let firstLine := lines.headD []
  match headerMatchCapture firstLine with
  | some cap => trimStr cap
  | none =>
    if 0 < firstLine.length ∧ firstLine.length < 100 then trimStr firstLine
    else stripMeetingExt filename

/-- meeting.ts `listMeetingNotes`: enumerate non-hidden files with allowed
extensions, read metadata and content, and sort by ascending modification
time; any read failure inside the try block degrades the whole listing
to `[]`. -/
def listMeetingNotes (fs : FS) (sourcePath : String) : List MeetingNoteFile :=
  let files := readdirF fs sourcePath
  let candidates := files.filter (fun filename =>
    !(startsWithStr filename ".") &&
      MEETING_EXTENSIONS.contains (String.mk (lowerStr (extnameOf filename).data)))
  match candidates.mapM (fun filename =>
      (lookupFS fs (joinPath sourcePath filename)).map (fun fd =>
        ({ filename := filename
           path := joinPath sourcePath filename
           content := fd.content
           timestamp := fd.mtime
           title := extractTitle fd.content filename } : MeetingNoteFile))) with
  | some notes => sortByLe (fun a b => decide (a.timestamp.epochMs ≤ b.timestamp.epochMs)) notes
  | none => []

/-- meeting.ts `formatMeetingContent`. -/
def formatMeetingContent (config : VaultCommanderConfig) (note : MeetingNoteFile) : Str :=
  let timeStr := getTimestamp note.timestamp
  ("### ").data ++ note.title ++ (" (").data ++ timeStr ++ (")\n\n").data ++
    trimStr note.content ++ ("\n").data

/-- The archive target for a meeting source file. -/
def meetingArchivePath (note : MeetingNoteFile) : String :=
  joinPath (dirnameOf note.path) (importedMarker ++ note.filename)

/-- meeting.ts `importMeetingNote`: ensure the daily note (dated now),
append the formatted content to the Meeting Notes section, then archive the
source, refusing when the archive target already exists. The daily-note
writes persist even when a later step throws. -/
def importMeetingNote (config : VaultCommanderConfig) (now : Date) (note : MeetingNoteFile)
    (archiveAfterImport : Bool) (fs : FS) : Except VaultError MeetingImportResult × FS :=
  let pfs := ensureDailyNote config now fs
  let formattedContent := formatMeetingContent config note
  match appendToSection pfs.2 pfs.1 config.sections.meetingNotes formattedContent with
  | (Except.error e, fs2) => (Except.error e, fs2)
  | (Except.ok _, fs2) =>
    if archiveAfterImport then
      if fileExists fs2 (meetingArchivePath note) then
        (Except.error (VaultError.alreadyArchived (meetingArchivePath note)), fs2)
      else
        match renameF fs2 note.path (meetingArchivePath note) with
        | Except.ok fs3 => (Except.ok ⟨note, pfs.1⟩, fs3)
        | Except.error e => (Except.error e, fs2)
    else (Except.ok ⟨note, pfs.1⟩, fs2)

/-- The per-note loop of meeting.ts `importAllMeetingNotes`: try each note,
pushing the result or the captured error, and continue. -/
def importAllGo (config : VaultCommanderConfig) (now : Date) (archiveAfterImport : Bool) :
    List MeetingNoteFile → FS → BulkMeetingImportResult × FS
  | [], fs => (⟨[], []⟩, fs)
  | note :: rest, fs =>
    match importMeetingNote config now note archiveAfterImport fs with
    | (Except.ok r, fs1) =>
      let next := importAllGo config now archiveAfterImport rest fs1
      (⟨r :: next.1.results, next.1.errors⟩, next.2)
    | (Except.error e, fs1) =>
      let next := importAllGo config now archiveAfterImport rest fs1
      (⟨next.1.results, (note, e) :: next.1.errors⟩, next.2)

/-- meeting.ts `importAllMeetingNotes`. -/
def importAllMeetingNotes (config : VaultCommanderConfig) (now : Date) (sourcePath : String)
    (archiveAfterImport : Bool) (fs : FS) : BulkMeetingImportResult × FS :=
  importAllGo config now archiveAfterImport (listMeetingNotes fs sourcePath) fs

/-- voice.ts `TranscriptionFile`. -/
structure TranscriptionFile where
  filename : String
  path : String
  content : Str
  timestamp : Date
deriving DecidableEq, Repr

/-- voice.ts `ImportResult`. -/
structure ImportResult where
  source : TranscriptionFile
  notePath : String
  noteFilename : String
deriving DecidableEq, Repr

/-- voice.ts `listTranscriptions`. -/
def listTranscriptions (fs : FS) (sourcePath : String) : List TranscriptionFile :=
  let files := readdirF fs sourcePath
  let candidates := files.filter (fun filename =>
    !(startsWithStr filename ".") &&
      TRANSCRIPTION_EXTENSIONS.contains (String.mk (lowerStr (extnameOf filename).data)))
  match candidates.mapM (fun filename =>
      (lookupFS fs (joinPath sourcePath filename)).map (fun fd =>
        ({ filename := filename
           path := joinPath sourcePath filename
           content := fd.content
           timestamp := fd.mtime } : TranscriptionFile))) with
  | some ts => sortByLe (fun a b => decide (a.timestamp.epochMs ≤ b.timestamp.epochMs)) ts
  | none => []

/-- voice.ts `generateVoiceNoteFilename`. -/
def generateVoiceNoteFilename (date : Date) : String :=
  "voice-" ++ dayjsFormat date "YYYY-MM-DD-HHmmss" ++ ".md"

/-- The inbox path of the atomic note a voice import writes. -/
def voiceNotePath (config : VaultCommanderConfig) (t : TranscriptionFile) : String :=
  joinPath (joinPath config.vaultPath config.inboxPath) (generateVoiceNoteFilename t.timestamp)

/-- The content of the atomic note a voice import writes. -/
def voiceNoteContent (config : VaultCommanderConfig) (t : TranscriptionFile) : Str :=
  getDailyNoteLink t.timestamp config.dailyNoteFormat ++ (" - ").data ++
    getTimestamp t.timestamp ++ (" (voice)\n\n").data ++ trimStr t.content ++ ("\n").data

/-- The archive target for a voice source file. -/
def voiceArchivePath (t : TranscriptionFile) : String :=
  joinPath (dirnameOf t.path) (importedMarker ++ t.filename)

/-- voice.ts `importTranscription`: write the formatted transcription as a
new atomic note in the inbox folder, then archive the source by rename
with no existence check on the destination. -/
def importTranscription (config : VaultCommanderConfig) (transcription : TranscriptionFile)
    (archiveAfterImport : Bool) (fs : FS) : Except VaultError ImportResult × FS :=
  let notePath := voiceNotePath config transcription
  let noteContent := voiceNoteContent config transcription
  let fs1 := writeF fs notePath noteContent
  if archiveAfterImport then
    match renameF fs1 transcription.path (voiceArchivePath transcription) with
    | Except.ok fs2 =>
      (Except.ok ⟨transcription, notePath, generateVoiceNoteFilename transcription.timestamp⟩, fs2)
    | Except.error e => (Except.error e, fs1)
  else
    (Except.ok ⟨transcription, notePath, generateVoiceNoteFilename transcription.timestamp⟩, fs1)

/-- The per-file sequencing of voice.ts `importAllTranscriptions`, which is a
bare `map`: the first thrown error propagates, aborting the
remaining imports, while writes already performed persist. -/
def importAllTransGo (config : VaultCommanderConfig) (archiveAfterImport : Bool) :
    List TranscriptionFile → FS → Except VaultError (List ImportResult) × FS
  | [], fs => (Except.ok [], fs)
  | t :: rest, fs =>
    match importTranscription config t archiveAfterImport fs with
    | (Except.error e, fs1) => (Except.error e, fs1)
    | (Except.ok r, fs1) =>
      match importAllTransGo config archiveAfterImport rest fs1 with
      | (Except.ok rs, fs2) => (Except.ok (r :: rs), fs2)
      | (Except.error e, fs2) => (Except.error e, fs2)

/-- voice.ts `importAllTranscriptions`. -/
def importAllTranscriptions (config : VaultCommanderConfig) (sourcePath : String)
    (archiveAfterImport : Bool) (fs : FS) : Except VaultError (List ImportResult) × FS :=
  importAllTransGo config archiveAfterImport (listTranscriptions fs sourcePath) fs

/-- search.ts `CONTENT_PREVIEW_LENGTH`. -/
def CONTENT_PREVIEW_LENGTH : Nat := 500

/-- types.ts `IndexEntry`. -/
structure IndexEntry where
  path : String
  filename : String
  content : Str
deriving DecidableEq, Repr

/-- types.ts `SearchIndex`. -/
abbrev SearchIndex := List IndexEntry

/-- types.ts `SearchResult`. The fuse.js relevance score is a JS number in
the unit interval; it is modelled as a rational. -/
structure SearchResult where
  path : String
  filename : String
  preview : Str
  score : Rat
deriving DecidableEq, Repr

/-- A directory tree on disk: files carry their content, or `none` when the
file exists but cannot be read (the preview read then degrades to empty). -/
inductive DirEntry where
  | file (name : String) (content : Option Str)
  | dir (name : String) (entries : List DirEntry)

mutual

/-- search.ts `findMarkdownFiles`, one directory entry: skip hidden names,
recurse into directories, collect `.md` files with their full path. The
readable content is carried along, standing for the later re-read by path. -/
def findMarkdownFilesEntry (dirPath : String) : DirEntry → List (String × Option Str)
  | DirEntry.file name content =>
    if startsWithStr name "." then []
    else if endsWithStr name ".md" then [(joinPath dirPath name, content)]
    else []
  | DirEntry.dir name entries =>
    if startsWithStr name "." then []
    else findMarkdownFilesList (joinPath dirPath name) entries

/-- search.ts `findMarkdownFiles` over a directory's entry list, in
traversal order. -/
def findMarkdownFilesList (dirPath : String) : List DirEntry → List (String × Option Str)
  | [] => []
  | e :: rest => findMarkdownFilesEntry dirPath e ++ findMarkdownFilesList dirPath rest

end

/-- search.ts `getFilePreview`: first 500 characters, degrading to empty on
a read failure. -/
def getFilePreview (content : Option Str) : Str :=
  match content with
  | some c => c.take CONTENT_PREVIEW_LENGTH
  | none => []

/-- Errors the index builder propagates. -/
inductive SearchError where
  | dirReadError (path : String)
deriving DecidableEq, Repr

/-- search.ts `buildSearchIndex`: `root` is the directory tree at
`vaultPath`, `none` when that path does not exist or cannot be read as a
directory — `readdirSync` then throws and the builder propagates the error
uncaught. -/
def buildSearchIndexT (vaultPath : String) (root : Option (List DirEntry)) :
    Except SearchError SearchIndex :=
  match root with
  | none => Except.error (SearchError.dirReadError vaultPath)
  | some entries =>
    Except.ok ((findMarkdownFilesList vaultPath entries).map (fun fc =>
      { path := fc.1
        filename := basenameSuffix fc.1 ".md"
        content := getFilePreview fc.2 }))

/-- One fuse.js match, as consumed by `searchVault`. -/
structure FuseResult where
  item : IndexEntry
  score : Option Rat
deriving DecidableEq, Repr

/-- The effective modification time `searchVault` stats for an entry: the
on-disk time, or 0 when the file has vanished (the catch branch). -/
def effMtime (fs : FS) (p : String) : Int :=
  match lookupFS fs p with
  | some d => d.mtime.epochMs
  | none => 0

/-- search.ts `searchVault`. The empty-query branch stats every entry,
sorts by descending modification time (stable), caps at 50 and fixes the
score at 0. The fuzzy branch delegates to the external fuse.js engine,
passed in as `fuse`. -/
def searchVault (fs : FS) (fuse : SearchIndex → String → List FuseResult)
    (index : SearchIndex) (query : String) : List SearchResult :=
  if trimStr query.data = [] then
    (((sortByLe (fun a b => decide (b.2 ≤ a.2))
        (index.map (fun entry =>
          match lookupFS fs entry.path with
          | some d => (entry, d.mtime.epochMs)
          | none => (entry, (0 : Int))))).take 50).map (fun p =>
      { path := p.1.path
        filename := p.1.filename
        preview := p.1.content.take 100
        score := 0 }))
  else
    ((fuse index query).take 50).map (fun r =>
      { path := r.item.path
        filename := r.item.filename
        preview := r.item.content.take 100
        score := r.score.getD 0 })

/-- today.tsx (useSearchIndex hook) `CacheEntry`. -/
structure CacheEntry where
  index : SearchIndex
  vaultPath : String
  timestamp : Int
deriving DecidableEq, Repr

/-- today.tsx `CACHE_TTL_MS`: 5 minutes. -/
def CACHE_TTL_MS : Int := 5 * 60 * 1000

/-- today.tsx `isCacheValid`: the cached vault path must match exactly and
the cache age must not exceed the TTL. -/
def isCacheValid (indexCache : Option CacheEntry) (vaultPath : String) (now : Int) : Bool :=
  match indexCache with
  | none => false
  | some c =>
    if c.vaultPath ≠ vaultPath then false
    else if now - c.timestamp > CACHE_TTL_MS then false
    else true

/-- The mutable state of the useSearchIndex hook: the module-level cache
slot and the in-flight guard ref. -/
structure HookState where
  indexCache : Option CacheEntry
  buildInProgress : Bool
deriving DecidableEq, Repr

/-- What one invocation of the hook's `buildIndex` delivers. -/
inductive BuildOutcome where
  | noVaultPath
  | servedFromCache (index : SearchIndex)
  | skippedInFlight
  | built (index : SearchIndex)
  | buildFailed (err : SearchError)
deriving DecidableEq, Repr

/-- The build phase of `buildIndex`: return immediately when a build is
already in flight; otherwise build, update the cache slot on success (leave
it untouched on failure), and clear the guard. `world` gives the directory
tree at each vault path. -/
def buildIndexRun (world : String → Option (List DirEntry)) (vaultPath : String) (now : Int)
    (st : HookState) : BuildOutcome × HookState :=
  if st.buildInProgress then (BuildOutcome.skippedInFlight, st)
  else
    match buildSearchIndexT vaultPath (world vaultPath) with
    | Except.ok searchIndex =>
      (BuildOutcome.built searchIndex, ⟨some ⟨searchIndex, vaultPath, now⟩, false⟩)
    | Except.error e => (BuildOutcome.buildFailed e, ⟨st.indexCache, false⟩)

/-- today.tsx `buildIndex`, one invocation as an atomic step: bail out when
no vault path is configured; serve the cache when it is valid (unless a
forced refresh); otherwise run the guarded build. -/
def buildIndexStep (world : String → Option (List DirEntry)) (vaultPath : Option String)
    (forceFresh : Bool) (now : Int) (st : HookState) : BuildOutcome × HookState :=
  match vaultPath with
  | none => (BuildOutcome.noVaultPath, st)
  | some vp =>
    match st.indexCache with
    | some c =>
      if !forceFresh && isCacheValid (some c) vp now then
        (BuildOutcome.servedFromCache c.index, st)
      else buildIndexRun world vp now st
    | none => buildIndexRun world vp now st

/-! ### Filesystem lemmas -/

theorem lookupFS_writeF : ∀ (fs : FS) (p : String) (c : Str) (q : String),
    lookupFS (writeF fs p c) q = if q = p then some ⟨c, mtimeZero⟩ else lookupFS fs q
  | [], p, c, q => by
    by_cases h : q = p
    · subst h; simp [writeF, lookupFS]
    · have h2 : ¬ p = q := fun hh => h hh.symm
      simp [writeF, lookupFS, h, h2]
  | e :: rest, p, c, q => by
    by_cases he : e.1 = p
    · by_cases h : q = p
      · subst h; simp [writeF, lookupFS, he]
      · have h2 : ¬ p = q := fun hh => h hh.symm
        have he2 : ¬ e.1 = q := fun hh => h (hh.symm.trans he)
        simp [writeF, lookupFS, he, h, h2, he2]
    · by_cases h : q = p
      · subst h
        simp [writeF, lookupFS, he, lookupFS_writeF rest q c q]
      · simp [writeF, lookupFS, he, h, lookupFS_writeF rest p c q]

theorem lookupFS_removeF : ∀ (fs : FS) (p q : String),
    lookupFS (removeF fs p) q = if q = p then none else lookupFS fs q
  | [], p, q => by by_cases h : q = p <;> simp [removeF, lookupFS, h]
  | e :: rest, p, q => by
    by_cases he : e.1 = p
    · by_cases h : q = p
      · subst h
        simp [removeF, lookupFS, he, lookupFS_removeF rest q q]
      · have he2 : ¬ e.1 = q := fun hh => h (hh.symm.trans he)
        have hpq : ¬ p = q := fun hh => h hh.symm
        simp [removeF, lookupFS, he, h, he2, hpq, lookupFS_removeF rest p q]
    · by_cases h : q = p
      · subst h
        simp [removeF, lookupFS, he, lookupFS_removeF rest q q]
      · simp [removeF, lookupFS, he, h, lookupFS_removeF rest p q]

theorem lookupFS_append : ∀ (l1 l2 : FS) (q : String),
    lookupFS (l1 ++ l2) q = (lookupFS l1 q).or (lookupFS l2 q)
  | [], l2, q => by simp [lookupFS]
  | e :: rest, l2, q => by
    by_cases he : e.1 = q <;> simp [lookupFS, he, lookupFS_append rest l2 q]

/-- The result state of a successful rename, seen through lookups: the
destination holds the moved data, the source is gone, all else unchanged. -/
theorem lookupFS_moved (fs : FS) (src dst : String) (d : FileData) (q : String) :
    lookupFS (removeF (removeF fs src) dst ++ [(dst, d)]) q =
      if q = dst then some d else if q = src then none else lookupFS fs q := by
  rw [lookupFS_append, lookupFS_removeF, lookupFS_removeF]
  by_cases h1 : q = dst
  · subst h1
    simp [lookupFS]
  · have h1s : ¬ dst = q := fun hh => h1 hh.symm
    by_cases h2 : q = src
    · subst h2
      simp [lookupFS, h1, h1s]
    · simp only [lookupFS, h1, h2, if_false, if_neg h1s]
      cases lookupFS fs q <;> rfl

theorem renameF_ok (fs : FS) (src dst : String) (d : FileData)
    (h : lookupFS fs src = some d) :
    renameF fs src dst = Except.ok (removeF (removeF fs src) dst ++ [(dst, d)]) := by
  simp [renameF, h]

/-! ### C2: daily-note creation contract -/

/-- C2: for every config and date, `ensureDailyNote` writes the template to
the computed daily-note path when that path does not exist (and only then),
never modifies an existing note, returns the computed path in either case,
and a second call on the resulting state is a no-op returning the same pair. -/
theorem ensureDailyNote_contract (config : VaultCommanderConfig) (date : Date) (fs : FS) :
    (ensureDailyNote config date fs).1 = getDailyNotePath config date
    ∧ (lookupFS fs (getDailyNotePath config date) = none →
        (ensureDailyNote config date fs).2 =
          writeF fs (getDailyNotePath config date) getDailyNoteTemplate
        ∧ lookupFS (ensureDailyNote config date fs).2 (getDailyNotePath config date) =
            some ⟨getDailyNoteTemplate, mtimeZero⟩)
    ∧ (∀ fd, lookupFS fs (getDailyNotePath config date) = some fd →
        (ensureDailyNote config date fs).2 = fs)
    ∧ ensureDailyNote config date (ensureDailyNote config date fs).2 =
        ensureDailyNote config date fs := by
  by_cases h : fileExists fs (getDailyNotePath config date) = true
  · have he : ensureDailyNote config date fs = (getDailyNotePath config date, fs) := by
      simp [ensureDailyNote, h]
    refine ⟨by rw [he], ?_, ?_, ?_⟩
    · intro hnone
      unfold fileExists at h
      rw [hnone] at h
      simp at h
    · intro fd _
      rw [he]
    · rw [he]
      exact he
  · have he : ensureDailyNote config date fs =
        (getDailyNotePath config date,
          writeF fs (getDailyNotePath config date) getDailyNoteTemplate) := by
      simp [ensureDailyNote, h]
    have hlook : lookupFS (writeF fs (getDailyNotePath config date) getDailyNoteTemplate)
        (getDailyNotePath config date) = some ⟨getDailyNoteTemplate, mtimeZero⟩ := by
      rw [lookupFS_writeF]
      simp
    refine ⟨by rw [he], ?_, ?_, ?_⟩
    · intro _
      exact ⟨by rw [he], by rw [he]; exact hlook⟩
    · intro fd hsome
      exfalso
      apply h
      unfold fileExists
      rw [hsome]
      rfl
    · rw [he]
      have : fileExists (writeF fs (getDailyNotePath config date) getDailyNoteTemplate)
          (getDailyNotePath config date) = true := by
        unfold fileExists
        rw [hlook]
        rfl
      simp [ensureDailyNote, this]

/-- C2 witness: on an empty filesystem the note is created from the template
and the second call is a no-op. -/
theorem ensureDailyNote_contract_witness :
    (ensureDailyNote
        ⟨"/vault", "Journal/Daily", "YYYY-MM-DD-ddd", "Inbox", DEFAULT_SECTIONS⟩
        ⟨0, 2024, 1, 15, 14, 35, 42, 1⟩ []).2 =
      writeF [] "/vault/Journal/Daily/2024-01-15-Mon.md" getDailyNoteTemplate
    ∧ ensureDailyNote
        ⟨"/vault", "Journal/Daily", "YYYY-MM-DD-ddd", "Inbox", DEFAULT_SECTIONS⟩
        ⟨0, 2024, 1, 15, 14, 35, 42, 1⟩
        (ensureDailyNote
          ⟨"/vault", "Journal/Daily", "YYYY-MM-DD-ddd", "Inbox", DEFAULT_SECTIONS⟩
          ⟨0, 2024, 1, 15, 14, 35, 42, 1⟩ []).2 =
      ensureDailyNote
        ⟨"/vault", "Journal/Daily", "YYYY-MM-DD-ddd", "Inbox", DEFAULT_SECTIONS⟩
        ⟨0, 2024, 1, 15, 14, 35, 42, 1⟩ [] := by
  have h := ensureDailyNote_contract
    ⟨"/vault", "Journal/Daily", "YYYY-MM-DD-ddd", "Inbox", DEFAULT_SECTIONS⟩
    ⟨0, 2024, 1, 15, 14, 35, 42, 1⟩ []
  exact ⟨(h.2.1 (by decide)).1, h.2.2.2⟩

/-! ### C4: missing marker is a hard failure with no write -/

/-- C4: when the target file does not contain the section marker,
`appendToSection` fails with the SectionNotFound error kind and returns the
filesystem unchanged — no partial write occurs. -/
theorem appendToSection_missing_marker (fs : FS) (filePath : String) (fd : FileData)
    (marker content : Str) (hread : lookupFS fs filePath = some fd)
    (hmiss : strIndexOf fd.content marker = none) :
    appendToSection fs filePath marker content =
      (Except.error (VaultError.sectionNotFound marker), fs) := by
  simp [appendToSection, hread, hmiss]

/-- C4 witness: appending below a marker absent from a concrete one-file
vault fails and leaves the state untouched. -/
theorem appendToSection_missing_marker_witness :
    appendToSection [("/v/d.md", ⟨("## A\nbody\n").data, mtimeZero⟩)] "/v/d.md"
        (("## X").data) (("c\n").data) =
      (Except.error (VaultError.sectionNotFound (("## X").data)),
        [("/v/d.md", ⟨("## A\nbody\n").data, mtimeZero⟩)]) :=
  appendToSection_missing_marker _ _ ⟨("## A\nbody\n").data, mtimeZero⟩ _ _
    (by decide) (by decide)

/-! ### strIndexOf characterization and C3 -/

theorem strIndexOf_pos (hay needle : Str) (h : needle <+: hay) :
    strIndexOf hay needle = some 0 := by
  unfold strIndexOf
  rw [if_pos h]

theorem strIndexOf_neg_nil (needle : Str) (h : ¬ needle <+: ([] : Str)) :
    strIndexOf [] needle = none := by
  unfold strIndexOf
  rw [if_neg h]

theorem strIndexOf_neg_cons (a : Char) (t needle : Str) (h : ¬ needle <+: a :: t) :
    strIndexOf (a :: t) needle = (strIndexOf t needle).map (· + 1) := by
  conv_lhs => rw [strIndexOf]
  rw [if_neg h]

/-- `strIndexOf` returns exactly the first position where the needle occurs. -/
theorem strIndexOf_eq_some_iff (hay needle : Str) : ∀ (i : Nat),
    strIndexOf hay needle = some i ↔
      (needle <+: hay.drop i ∧ ∀ j, j < i → ¬ needle <+: hay.drop j) := by
  induction hay with
  | nil =>
    intro i
    by_cases hp : needle <+: ([] : Str)
    · rw [strIndexOf_pos [] needle hp]
      constructor
      · intro h
        have hi : i = 0 := by
          have := Option.some.inj h
          omega
        subst hi
        exact ⟨hp, fun j hj => absurd hj (by omega)⟩
      · rintro ⟨h1, h2⟩
        rcases Nat.eq_zero_or_pos i with hi | hi
        · subst hi; rfl
        · exact absurd (by simpa using hp) (h2 0 hi)
    · rw [strIndexOf_neg_nil needle hp]
      constructor
      · intro h; cases h
      · rintro ⟨h1, _⟩
        exact absurd (by simpa using h1) hp
  | cons a t ih =>
    intro i
    by_cases hp : needle <+: a :: t
    · rw [strIndexOf_pos (a :: t) needle hp]
      constructor
      · intro h
        have hi : i = 0 := by
          have := Option.some.inj h
          omega
        subst hi
        exact ⟨hp, fun j hj => absurd hj (by omega)⟩
      · rintro ⟨h1, h2⟩
        rcases Nat.eq_zero_or_pos i with hi | hi
        · subst hi; rfl
        · exact absurd (by simpa using hp) (h2 0 hi)
    · rw [strIndexOf_neg_cons a t needle hp]
      rw [Option.map_eq_some']
      constructor
      · rintro ⟨b, hb, rfl⟩
        have hbt := (ih b).mp hb
        refine ⟨by simpa using hbt.1, ?_⟩
        intro j hj
        cases j with
        | zero => simpa using hp
        | succ j2 =>
          have hj2 : j2 < b := by omega
          simpa using hbt.2 j2 hj2
      · rintro ⟨h1, h2⟩
        cases i with
        | zero => exact absurd (by simpa using h1) hp
        | succ i2 =>
          refine ⟨i2, ?_, by omega⟩
          apply (ih i2).mpr
          refine ⟨by simpa using h1, ?_⟩
          intro j hj
          have := h2 (j + 1) (by omega)
          simpa using this

theorem charIdxFrom_at (hay : Str) (k : Nat) (rest : Str) (h : hay.drop k = '\n' :: rest) :
    charIdxFrom hay '\n' k = some k := by
  unfold charIdxFrom
  rw [h]
  simp [idxOfChar]

/-- C3: `appendToSection` anchors on the first literal occurrence of the
marker (first conjunct: the characterization of the anchor), and for a file
holding markers A, B, C in order it splices the new content in directly
after B's header line, leaving every byte before the insertion point (A's
header and body) and every byte after it (B's body, C's header and body)
unchanged (second conjunct). -/
theorem appendToSection_first_occurrence_insertion :
    (∀ (hay needle : Str) (i : Nat),
      strIndexOf hay needle = some i ↔
        (needle <+: hay.drop i ∧ ∀ j, j < i → ¬ needle <+: hay.drop j))
    ∧ (∀ (fs : FS) (path : String) (mt : Date) (A aBody B bBody C cBody cnt : Str),
        lookupFS fs path =
          some ⟨(A ++ '\n' :: aBody) ++ B ++ '\n' :: (bBody ++ C ++ '\n' :: cBody), mt⟩ →
        (∀ j, j < (A ++ '\n' :: aBody).length →
          ¬ B <+: ((A ++ '\n' :: aBody) ++ B ++ '\n' :: (bBody ++ C ++ '\n' :: cBody)).drop j) →
        appendToSection fs path B cnt =
          (Except.ok (),
            writeF fs path
              ((A ++ '\n' :: aBody) ++ B ++ '\n' :: cnt ++ '\n' :: (bBody ++ C ++ '\n' :: cBody)))) := by
  constructor
  · exact strIndexOf_eq_some_iff
  · intro fs path mt A aBody B bBody C cBody cnt hread hfirst
    set pre : Str := A ++ '\n' :: aBody with hpre
    set suf : Str := bBody ++ C ++ '\n' :: cBody with hsuf
    have hlen : (pre ++ B).length = pre.length + B.length := List.length_append pre B
    have hidx : strIndexOf (pre ++ B ++ '\n' :: suf) B = some pre.length := by
      apply (strIndexOf_eq_some_iff (pre ++ B ++ '\n' :: suf) B pre.length).mpr
      constructor
      · rw [List.append_assoc, List.drop_left]
        exact List.prefix_append B ('\n' :: suf)
      · exact hfirst
    have htake : (pre ++ B ++ '\n' :: suf).take (pre.length + B.length) = pre ++ B := by
      rw [← hlen, List.take_left]
    have hdrop : (pre ++ B ++ '\n' :: suf).drop (pre.length + B.length) = '\n' :: suf := by
      rw [← hlen, List.drop_left]
    have hci : charIdxFrom (pre ++ B ++ '\n' :: suf) '\n' (pre.length + B.length) =
        some (pre.length + B.length) :=
      charIdxFrom_at _ _ _ hdrop
    simp only [appendToSection, hread, hidx, hci, Option.getD_some, htake, hdrop]

/-- C3 witness: appending below marker B of a concrete A/B/C file produces
exactly the spliced file, bodies of A and C untouched. -/
theorem appendToSection_first_occurrence_insertion_witness :
    appendToSection [("/v/d.md", ⟨("## A\nx\n## B\ny\n## C\nz\n").data, mtimeZero⟩)] "/v/d.md"
        (("## B").data) (("new\n").data) =
      (Except.ok (),
        writeF [("/v/d.md", ⟨("## A\nx\n## B\ny\n## C\nz\n").data, mtimeZero⟩)] "/v/d.md"
          (("## A\nx\n## B\nnew\n\ny\n## C\nz\n").data)) :=
  appendToSection_first_occurrence_insertion.2
    [("/v/d.md", ⟨("## A\nx\n## B\ny\n## C\nz\n").data, mtimeZero⟩)] "/v/d.md" mtimeZero
    (("## A").data) (("x\n").data) (("## B").data) (("y\n").data) (("## C").data)
    (("z\n").data) (("new\n").data) (by decide) (by decide)

/-! ### C1 and C6: per-file import behavior of the two pipelines -/

/-- A concrete configuration for counterexamples. -/
def cexConfig : VaultCommanderConfig :=
  ⟨"/vault", "Journal/Daily", "YYYY-MM-DD-ddd", "Inbox", DEFAULT_SECTIONS⟩

/-- A concrete timestamp for counterexamples. -/
def cexDate : Date := ⟨1705329342000, 2024, 1, 15, 14, 35, 42, 1⟩

/-- A concrete discovered voice transcription for counterexamples. -/
def cexTrans : TranscriptionFile := ⟨"t1.txt", "/drop/t1.txt", ("hello").data, cexDate⟩

/-- The drop folder holding only that transcription. -/
def cexFs : FS := [("/drop/t1.txt", ⟨("hello").data, cexDate⟩)]

/-- C1 counterexample: a voice import succeeds, yet the resulting filesystem
holds only the new inbox note and the archived source — no daily note was
ensured and nothing was appended to any daily-note section, contrary to the
claim's description of the voice pipeline. -/
theorem voice_import_skips_daily_note :
    (importTranscription cexConfig cexTrans true cexFs).1 =
      Except.ok ⟨cexTrans, "/vault/Inbox/voice-2024-01-15-143542.md",
        "voice-2024-01-15-143542.md"⟩
    ∧ (importTranscription cexConfig cexTrans true cexFs).2.map Prod.fst =
        ["/vault/Inbox/voice-2024-01-15-143542.md", "/drop/.imported-t1.txt"]
    ∧ lookupFS (importTranscription cexConfig cexTrans true cexFs).2
        (getDailyNotePath cexConfig cexDate) = none := by
  decide

/-- C1 (amended): the meeting pipeline's importOne ensures the daily note,
appends the formatted content to the configured Meeting Notes section, and
archives the source under the reserved prefix (first conjunct, stated as
the exact effect under the success hypotheses); the voice pipeline's
own importOne instead writes an atomic inbox note and archives the source,
touching no path other than the inbox note, the source and its archive
name — in particular it neither creates nor modifies any daily note
(second conjunct, a frame property). -/
theorem importOne_pipeline_behavior :
    (∀ (config : VaultCommanderConfig) (now : Date) (note : MeetingNoteFile)
        (fs fs2 : FS) (fd : FileData),
      appendToSection (ensureDailyNote config now fs).2 (ensureDailyNote config now fs).1
          config.sections.meetingNotes (formatMeetingContent config note) =
        (Except.ok (), fs2) →
      fileExists fs2 (meetingArchivePath note) = false →
      lookupFS fs2 note.path = some fd →
      importMeetingNote config now note true fs =
        (Except.ok ⟨note, (ensureDailyNote config now fs).1⟩,
          removeF (removeF fs2 note.path) (meetingArchivePath note) ++
            [(meetingArchivePath note, fd)]))
    ∧ (∀ (config : VaultCommanderConfig) (t : TranscriptionFile) (fs : FS) (q : String),
        q ≠ voiceNotePath config t → q ≠ t.path → q ≠ voiceArchivePath t →
        lookupFS (importTranscription config t true fs).2 q = lookupFS fs q) := by
  constructor
  · intro config now note fs fs2 fd happ harch hsrc
    simp only [importMeetingNote, happ, harch, renameF_ok fs2 note.path (meetingArchivePath note) fd hsrc,
      if_true, Bool.false_eq_true, if_false]
  · intro config t fs q h1 h2 h3
    rcases hr : lookupFS (writeF fs (voiceNotePath config t) (voiceNoteContent config t)) t.path
      with _ | d
    · simp only [importTranscription, renameF, hr, if_true]
      rw [lookupFS_writeF]
      simp [h1]
    · simp only [importTranscription, renameF, hr, if_true]
      rw [lookupFS_moved, lookupFS_writeF]
      simp [h1, h2, h3]

/-- C1 witness: a concrete meeting import where appending succeeds and the
archive name is free, and a concrete voice import leaving an unrelated path
untouched. -/
theorem importOne_pipeline_behavior_witness :
    importMeetingNote cexConfig cexDate
        ⟨"m1.txt", "/m/m1.txt", ("Standup").data, cexDate, ("Standup").data⟩ true
        [("/m/m1.txt", ⟨("Standup").data, cexDate⟩)] =
      (Except.ok ⟨⟨"m1.txt", "/m/m1.txt", ("Standup").data, cexDate, ("Standup").data⟩,
          "/vault/Journal/Daily/2024-01-15-Mon.md"⟩,
        removeF
          (removeF
            (appendToSection
              (ensureDailyNote cexConfig cexDate [("/m/m1.txt", ⟨("Standup").data, cexDate⟩)]).2
              (ensureDailyNote cexConfig cexDate [("/m/m1.txt", ⟨("Standup").data, cexDate⟩)]).1
              cexConfig.sections.meetingNotes
              (formatMeetingContent cexConfig
                ⟨"m1.txt", "/m/m1.txt", ("Standup").data, cexDate, ("Standup").data⟩)).2
            "/m/m1.txt")
          "/m/.imported-m1.txt" ++
          [("/m/.imported-m1.txt", ⟨("Standup").data, cexDate⟩)])
    ∧ lookupFS (importTranscription cexConfig cexTrans true cexFs).2 "/elsewhere/x.md" =
        lookupFS cexFs "/elsewhere/x.md" := by
  constructor
  · exact importOne_pipeline_behavior.1 cexConfig cexDate
      ⟨"m1.txt", "/m/m1.txt", ("Standup").data, cexDate, ("Standup").data⟩
      [("/m/m1.txt", ⟨("Standup").data, cexDate⟩)] _ ⟨("Standup").data, cexDate⟩
      (by decide) (by decide) (by decide)
  · exact importOne_pipeline_behavior.2 cexConfig cexTrans cexFs "/elsewhere/x.md"
      (by decide) (by decide) (by decide)

/-- The drop folder with the transcription and a pre-existing archive of a
same-named prior file. -/
def cexFsV : FS :=
  [("/drop/t1.txt", ⟨("hello").data, cexDate⟩),
   ("/drop/.imported-t1.txt", ⟨("prior").data, mtimeZero⟩)]

/-- C6 counterexample: with a file already present at the archive target
name, the voice import succeeds (no AlreadyArchived error) and the prior
archived content is silently replaced by the new source's content. -/
theorem voice_archive_overwrites_silently :
    (importTranscription cexConfig cexTrans true cexFsV).1 =
      Except.ok ⟨cexTrans, "/vault/Inbox/voice-2024-01-15-143542.md",
        "voice-2024-01-15-143542.md"⟩
    ∧ lookupFS (importTranscription cexConfig cexTrans true cexFsV).2
        "/drop/.imported-t1.txt" = some ⟨("hello").data, cexDate⟩ := by
  decide

/-- C6 (amended): the meeting pipeline's importOne fails with the
AlreadyArchived error kind when a file already exists at the archive target
name, leaving the state as of the append (first conjunct); the voice
pipeline performs no such check: it succeeds and the archive target ends up
holding the source file's data, silently replacing any prior archive
(second conjunct). -/
theorem archive_collision_meeting_only :
    (∀ (config : VaultCommanderConfig) (now : Date) (note : MeetingNoteFile) (fs fs2 : FS),
      appendToSection (ensureDailyNote config now fs).2 (ensureDailyNote config now fs).1
          config.sections.meetingNotes (formatMeetingContent config note) =
        (Except.ok (), fs2) →
      fileExists fs2 (meetingArchivePath note) = true →
      importMeetingNote config now note true fs =
        (Except.error (VaultError.alreadyArchived (meetingArchivePath note)), fs2))
    ∧ (∀ (config : VaultCommanderConfig) (t : TranscriptionFile) (fs : FS) (fd : FileData),
        lookupFS (writeF fs (voiceNotePath config t) (voiceNoteContent config t)) t.path =
          some fd →
        (importTranscription config t true fs).1 =
          Except.ok ⟨t, voiceNotePath config t, generateVoiceNoteFilename t.timestamp⟩
        ∧ lookupFS (importTranscription config t true fs).2 (voiceArchivePath t) = some fd) := by
  constructor
  · intro config now note fs fs2 happ harch
    simp only [importMeetingNote, happ, harch, if_true]
  · intro config t fs fd hsrc
    constructor
    · simp only [importTranscription,
        renameF_ok _ t.path (voiceArchivePath t) fd hsrc, if_true]
    · simp only [importTranscription,
        renameF_ok _ t.path (voiceArchivePath t) fd hsrc, if_true]
      rw [lookupFS_moved]
      simp

/-- C6 witness: a concrete meeting import hitting a pre-seeded archive
collision fails with the AlreadyArchived kind; a concrete voice import
lands its source at the archive name. -/
theorem archive_collision_meeting_only_witness :
    importMeetingNote cexConfig cexDate
        ⟨"m1.txt", "/m/m1.txt", ("Standup").data, cexDate, ("Standup").data⟩ true
        [("/m/m1.txt", ⟨("Standup").data, cexDate⟩),
         ("/m/.imported-m1.txt", ⟨("old").data, mtimeZero⟩)] =
      (Except.error (VaultError.alreadyArchived "/m/.imported-m1.txt"),
        (appendToSection
          (ensureDailyNote cexConfig cexDate
            [("/m/m1.txt", ⟨("Standup").data, cexDate⟩),
             ("/m/.imported-m1.txt", ⟨("old").data, mtimeZero⟩)]).2
          (ensureDailyNote cexConfig cexDate
            [("/m/m1.txt", ⟨("Standup").data, cexDate⟩),
             ("/m/.imported-m1.txt", ⟨("old").data, mtimeZero⟩)]).1
          cexConfig.sections.meetingNotes
          (formatMeetingContent cexConfig
            ⟨"m1.txt", "/m/m1.txt", ("Standup").data, cexDate, ("Standup").data⟩)).2)
    ∧ lookupFS (importTranscription cexConfig cexTrans true cexFs).2
        (voiceArchivePath cexTrans) = some ⟨("hello").data, cexDate⟩ := by
  constructor
  · exact archive_collision_meeting_only.1 cexConfig cexDate
      ⟨"m1.txt", "/m/m1.txt", ("Standup").data, cexDate, ("Standup").data⟩
      [("/m/m1.txt", ⟨("Standup").data, cexDate⟩),
       ("/m/.imported-m1.txt", ⟨("old").data, mtimeZero⟩)] _
      (by decide) (by decide)
  · exact (archive_collision_meeting_only.2 cexConfig cexTrans cexFs
      ⟨("hello").data, cexDate⟩ (by decide)).2

/-! ### C5: bulk import error isolation -/

/-- A successful per-note meeting import always reports the imported note
itself as its source. -/
theorem importMeetingNote_ok_source (config : VaultCommanderConfig) (now : Date)
    (note : MeetingNoteFile) (a : Bool) (fs : FS) (r : MeetingImportResult) (fs1 : FS)
    (h : importMeetingNote config now note a fs = (Except.ok r, fs1)) : r.source = note := by
  simp only [importMeetingNote] at h
  split at h
  · exact absurd (congrArg Prod.fst h) (by simp)
  · split at h
    · split at h
      · exact absurd (congrArg Prod.fst h) (by simp)
      · split at h
        · have := Except.ok.inj (congrArg Prod.fst h)
          rw [← this]
        · exact absurd (congrArg Prod.fst h) (by simp)
    · have := Except.ok.inj (congrArg Prod.fst h)
      rw [← this]

/-- The meeting bulk-import loop accounts for every input note exactly once:
the result and error lists partition the discovered notes. -/
theorem importAllGo_accounting (config : VaultCommanderConfig) (now : Date) (a : Bool) :
    ∀ (notes : List MeetingNoteFile) (fs : FS),
      (importAllGo config now a notes fs).1.results.length +
          (importAllGo config now a notes fs).1.errors.length = notes.length
      ∧ ((importAllGo config now a notes fs).1.errors.map Prod.fst).Sublist notes
      ∧ ((importAllGo config now a notes fs).1.results.map
          MeetingImportResult.source).Sublist notes
  | [], fs => by simp [importAllGo]
  | note :: rest, fs => by
    rcases h : importMeetingNote config now note a fs with ⟨res, fs1⟩
    have ih := importAllGo_accounting config now a rest fs1
    cases res with
    | ok r =>
      have hsrc : r.source = note :=
        importMeetingNote_ok_source config now note a fs r fs1 h
      have e1 : importAllGo config now a (note :: rest) fs =
          (⟨r :: (importAllGo config now a rest fs1).1.results,
            (importAllGo config now a rest fs1).1.errors⟩,
           (importAllGo config now a rest fs1).2) := by
        simp [importAllGo, h]
      rw [e1]
      refine ⟨?_, ?_, ?_⟩
      · show (r :: (importAllGo config now a rest fs1).1.results).length +
            (importAllGo config now a rest fs1).1.errors.length = (note :: rest).length
        have := ih.1
        simp only [List.length_cons]
        omega
      · show ((importAllGo config now a rest fs1).1.errors.map Prod.fst).Sublist (note :: rest)
        exact ih.2.1.cons note
      · show ((r :: (importAllGo config now a rest fs1).1.results).map
            MeetingImportResult.source).Sublist (note :: rest)
        rw [List.map_cons, hsrc]
        exact ih.2.2.cons₂ note
    | error e =>
      have e1 : importAllGo config now a (note :: rest) fs =
          (⟨(importAllGo config now a rest fs1).1.results,
            (note, e) :: (importAllGo config now a rest fs1).1.errors⟩,
           (importAllGo config now a rest fs1).2) := by
        simp [importAllGo, h]
      rw [e1]
      refine ⟨?_, ?_, ?_⟩
      · show (importAllGo config now a rest fs1).1.results.length +
            ((note, e) :: (importAllGo config now a rest fs1).1.errors).length =
            (note :: rest).length
        have := ih.1
        simp only [List.length_cons]
        omega
      · show (((note, e) :: (importAllGo config now a rest fs1).1.errors).map
            Prod.fst).Sublist (note :: rest)
        rw [List.map_cons]
        exact ih.2.1.cons₂ note
      · show ((importAllGo config now a rest fs1).1.results.map
            MeetingImportResult.source).Sublist (note :: rest)
        exact ih.2.2.cons note

/-- A voice transcription whose source file is missing at import time,
standing for a per-file filesystem failure mid-batch. -/
def cexMissingTrans : TranscriptionFile :=
  ⟨"gone.txt", "/drop/gone.txt", ("x").data, ⟨1705329350000, 2024, 1, 15, 14, 35, 50, 1⟩⟩

/-- C5 counterexample: in the voice pipeline's bulk-import loop, a per-file
failure is not captured per item — the loop propagates the error, aborting
the batch, and the second file's inbox note is never written. -/
theorem voice_importAll_aborts_on_failure :
    (importAllTransGo cexConfig true [cexMissingTrans, cexTrans] []).1 =
      Except.error (VaultError.notFound "/drop/gone.txt")
    ∧ lookupFS (importAllTransGo cexConfig true [cexMissingTrans, cexTrans] []).2
        (voiceNotePath cexConfig cexTrans) = none := by
  decide

/-- C5 (amended): the meeting pipeline's importAll processes every discovered
file independently, capturing per-file failures in the errors component so
that results and errors together account for every discovered note and each
names an actual input note (first conjunct); the voice pipeline's importAll
is a bare map with no per-item capture: a failing import makes the whole
batch return that error, aborting the remaining files (second conjunct). -/
theorem importAll_partial_success_meeting_only :
    (∀ (config : VaultCommanderConfig) (now : Date) (a : Bool) (sourcePath : String) (fs : FS),
      (importAllMeetingNotes config now sourcePath a fs).1.results.length +
          (importAllMeetingNotes config now sourcePath a fs).1.errors.length =
        (listMeetingNotes fs sourcePath).length
      ∧ ((importAllMeetingNotes config now sourcePath a fs).1.errors.map Prod.fst).Sublist
          (listMeetingNotes fs sourcePath)
      ∧ ((importAllMeetingNotes config now sourcePath a fs).1.results.map
          MeetingImportResult.source).Sublist (listMeetingNotes fs sourcePath))
    ∧ (∀ (config : VaultCommanderConfig) (a : Bool) (t : TranscriptionFile)
        (rest : List TranscriptionFile) (fs fs1 : FS) (e : VaultError),
        importTranscription config t a fs = (Except.error e, fs1) →
        importAllTransGo config a (t :: rest) fs = (Except.error e, fs1)) := by
  constructor
  · intro config now a sourcePath fs
    exact importAllGo_accounting config now a (listMeetingNotes fs sourcePath) fs
  · intro config a t rest fs fs1 e h
    simp [importAllTransGo, h]

/-- C5 witness: a concrete two-note meeting batch where the first note hits
an archive collision yields one captured error plus one success, while a
concrete voice batch aborts on its first failure. -/
theorem importAll_partial_success_meeting_only_witness :
    ((importAllMeetingNotes cexConfig cexDate "/m" true
        [("/m/a.txt", ⟨("alpha").data, ⟨100, 2024, 1, 15, 8, 0, 0, 1⟩⟩),
         ("/m/b.txt", ⟨("beta").data, ⟨200, 2024, 1, 15, 9, 0, 0, 1⟩⟩),
         ("/m/.imported-a.txt", ⟨("old").data, mtimeZero⟩)]).1.results.length +
      (importAllMeetingNotes cexConfig cexDate "/m" true
        [("/m/a.txt", ⟨("alpha").data, ⟨100, 2024, 1, 15, 8, 0, 0, 1⟩⟩),
         ("/m/b.txt", ⟨("beta").data, ⟨200, 2024, 1, 15, 9, 0, 0, 1⟩⟩),
         ("/m/.imported-a.txt", ⟨("old").data, mtimeZero⟩)]).1.errors.length =
      (listMeetingNotes
        [("/m/a.txt", ⟨("alpha").data, ⟨100, 2024, 1, 15, 8, 0, 0, 1⟩⟩),
         ("/m/b.txt", ⟨("beta").data, ⟨200, 2024, 1, 15, 9, 0, 0, 1⟩⟩),
         ("/m/.imported-a.txt", ⟨("old").data, mtimeZero⟩)] "/m").length)
    ∧ importAllTransGo cexConfig true [cexMissingTrans] [] =
        (Except.error (VaultError.notFound "/drop/gone.txt"),
          writeF [] (voiceNotePath cexConfig cexMissingTrans)
            (voiceNoteContent cexConfig cexMissingTrans)) := by
  constructor
  · exact (importAll_partial_success_meeting_only.1 cexConfig cexDate true "/m"
      [("/m/a.txt", ⟨("alpha").data, ⟨100, 2024, 1, 15, 8, 0, 0, 1⟩⟩),
       ("/m/b.txt", ⟨("beta").data, ⟨200, 2024, 1, 15, 9, 0, 0, 1⟩⟩),
       ("/m/.imported-a.txt", ⟨("old").data, mtimeZero⟩)]).1
  · exact importAll_partial_success_meeting_only.2 cexConfig true cexMissingTrans [] []
      (writeF [] (voiceNotePath cexConfig cexMissingTrans)
        (voiceNoteContent cexConfig cexMissingTrans))
      (VaultError.notFound "/drop/gone.txt") (by decide)

/-! ### Sorting lemmas and C7 -/

theorem sortInsert_perm (le : α → α → Bool) (a : α) : ∀ (l : List α),
    (sortInsert le a l).Perm (a :: l)
  | [] => List.Perm.refl _
  | b :: t => by
    by_cases h : le a b = true
    · have heq : sortInsert le a (b :: t) = a :: b :: t := by simp [sortInsert, h]
      rw [heq]
    · have heq : sortInsert le a (b :: t) = b :: sortInsert le a t := by simp [sortInsert, h]
      rw [heq]
      exact ((sortInsert_perm le a t).cons b).trans (List.Perm.swap a b t)

theorem sortByLe_perm (le : α → α → Bool) : ∀ (l : List α), (sortByLe le l).Perm l
  | [] => List.Perm.refl _
  | a :: t => (sortInsert_perm le a (sortByLe le t)).trans ((sortByLe_perm le t).cons a)

theorem sortInsert_pairwise (le : α → α → Bool)
    (htrans : ∀ x y z, le x y = true → le y z = true → le x z = true)
    (htotal : ∀ x y, le x y = true ∨ le y x = true) (a : α) :
    ∀ (l : List α), l.Pairwise (fun x y => le x y = true) →
      (sortInsert le a l).Pairwise (fun x y => le x y = true)
  | [], _ => by simp [sortInsert]
  | b :: t, hl => by
    rw [List.pairwise_cons] at hl
    obtain ⟨hb, ht⟩ := hl
    by_cases h : le a b = true
    · have heq : sortInsert le a (b :: t) = a :: b :: t := by simp [sortInsert, h]
      rw [heq, List.pairwise_cons]
      refine ⟨?_, ?_⟩
      · intro x hx
        rcases List.mem_cons.mp hx with rfl | hx2
        · exact h
        · exact htrans a b x h (hb x hx2)
      · rw [List.pairwise_cons]
        exact ⟨hb, ht⟩
    · have hba : le b a = true := (htotal a b).resolve_left h
      have heq : sortInsert le a (b :: t) = b :: sortInsert le a t := by simp [sortInsert, h]
      rw [heq, List.pairwise_cons]
      refine ⟨?_, sortInsert_pairwise le htrans htotal a t ht⟩
      intro x hx
      have hx2 : x ∈ a :: t := ((sortInsert_perm le a t).mem_iff).mp hx
      rcases List.mem_cons.mp hx2 with rfl | hx3
      · exact hba
      · exact hb x hx3

theorem sortByLe_pairwise (le : α → α → Bool)
    (htrans : ∀ x y z, le x y = true → le y z = true → le x z = true)
    (htotal : ∀ x y, le x y = true ∨ le y x = true) :
    ∀ (l : List α), (sortByLe le l).Pairwise (fun x y => le x y = true)
  | [] => by simp [sortByLe]
  | a :: t =>
    sortInsert_pairwise le htrans htotal a (sortByLe le t)
      (sortByLe_pairwise le htrans htotal t)

/-- C7: on an empty or whitespace-only query, `searchVault` returns exactly
the first 50 entries of a descending-recency ordering of the whole index:
there is a permutation S of the index annotated with each entry's effective
modification time (the on-disk time, a vanished file counting as 0, the
oldest possible non-negative stamp), sorted by descending time, such that
the result is precisely the 50-prefix of S mapped to results with score 0
and the 100-character preview (first conjunct); consequently the result has
length exactly min 50 (index length), is ordered by descending effective
modification time, and every result carries score 0, a preview of at most
100 characters, and the fields of an index entry (remaining conjuncts). -/
theorem searchVault_empty_query_recency (fs : FS)
    (fuse : SearchIndex → String → List FuseResult) (index : SearchIndex) (query : String)
    (hq : trimStr query.data = []) :
    (∃ S : List (IndexEntry × Int),
      S.Perm (index.map (fun e => (e, effMtime fs e.path)))
      ∧ S.Pairwise (fun a b => b.2 ≤ a.2)
      ∧ searchVault fs fuse index query = (S.take 50).map (fun p =>
          { path := p.1.path
            filename := p.1.filename
            preview := p.1.content.take 100
            score := 0 }))
    ∧ (searchVault fs fuse index query).length = min 50 index.length
    ∧ List.Pairwise (fun r s : SearchResult => effMtime fs s.path ≤ effMtime fs r.path)
        (searchVault fs fuse index query)
    ∧ ∀ r ∈ searchVault fs fuse index query,
        r.score = 0 ∧ r.preview.length ≤ 100
        ∧ ∃ e ∈ index, r.path = e.path ∧ r.filename = e.filename
            ∧ r.preview = e.content.take 100 := by
  have hannext : (index.map (fun entry =>
      match lookupFS fs entry.path with
      | some d => (entry, d.mtime.epochMs)
      | none => (entry, (0 : Int)))) =
      index.map (fun e => (e, effMtime fs e.path)) := by
    have hfun : (fun entry : IndexEntry =>
        match lookupFS fs entry.path with
        | some d => (entry, d.mtime.epochMs)
        | none => (entry, (0 : Int))) =
        fun e : IndexEntry => (e, effMtime fs e.path) := by
      funext e
      unfold effMtime
      cases lookupFS fs e.path <;> rfl
    rw [hfun]
  have hsv : searchVault fs fuse index query =
      ((sortByLe (fun a b => decide (b.2 ≤ a.2))
          (index.map (fun e => (e, effMtime fs e.path)))).take 50).map (fun p =>
        { path := p.1.path
          filename := p.1.filename
          preview := p.1.content.take 100
          score := 0 }) := by
    simp only [searchVault]
    rw [if_pos hq, hannext]
  set S := sortByLe (fun a b : IndexEntry × Int => decide (b.2 ≤ a.2))
    (index.map (fun e => (e, effMtime fs e.path))) with hSdef
  have hperm : S.Perm (index.map (fun e => (e, effMtime fs e.path))) :=
    sortByLe_perm _ _
  have hpwB := sortByLe_pairwise (fun a b : IndexEntry × Int => decide (b.2 ≤ a.2))
    (by
      intro x y z hxy hyz
      rw [decide_eq_true_eq] at hxy hyz ⊢
      exact le_trans hyz hxy)
    (by
      intro x y
      rw [decide_eq_true_eq, decide_eq_true_eq]
      exact le_total y.2 x.2)
    (index.map (fun e => (e, effMtime fs e.path)))
  have hpw : S.Pairwise (fun a b : IndexEntry × Int => b.2 ≤ a.2) :=
    hpwB.imp (fun h => by rwa [decide_eq_true_eq] at h)
  have hmemS : ∀ x ∈ S, x.2 = effMtime fs x.1.path ∧ x.1 ∈ index := by
    intro x hx
    obtain ⟨e, he, rfl⟩ := List.mem_map.mp (hperm.mem_iff.mp hx)
    exact ⟨rfl, he⟩
  refine ⟨⟨S, hperm, hpw, hsv⟩, ?_, ?_, ?_⟩
  · rw [hsv, List.length_map, List.length_take, hperm.length_eq, List.length_map]
  · rw [hsv, List.pairwise_map]
    have hpwt := hpw.sublist (List.take_sublist 50 S)
    refine hpwt.imp_of_mem ?_
    intro a b ha hb hab
    have haS := (hmemS a ((List.take_sublist 50 S).subset ha)).1
    have hbS := (hmemS b ((List.take_sublist 50 S).subset hb)).1
    show effMtime fs b.1.path ≤ effMtime fs a.1.path
    rw [← haS, ← hbS]
    exact hab
  · rw [hsv]
    intro r hr
    obtain ⟨p, hp, rfl⟩ := List.mem_map.mp hr
    have hpS := (hmemS p ((List.take_sublist 50 S).subset hp)).2
    exact ⟨rfl, List.length_take_le 100 _, p.1, hpS, rfl, rfl, rfl⟩

/-- C7 witness: a concrete three-entry index with one vanished file, queried
with a whitespace-only string. -/
theorem searchVault_empty_query_recency_witness :
    (searchVault [("/v/a.md", ⟨("aaa").data, ⟨100, 0, 0, 0, 0, 0, 0, 0⟩⟩),
        ("/v/c.md", ⟨("ccc").data, ⟨300, 0, 0, 0, 0, 0, 0, 0⟩⟩)] (fun _ _ => [])
        [⟨"/v/a.md", "a", ("aaa").data⟩, ⟨"/v/b.md", "b", ("bbb").data⟩,
         ⟨"/v/c.md", "c", ("ccc").data⟩] " ").length =
      min 50 3
    ∧ ∀ r ∈ searchVault [("/v/a.md", ⟨("aaa").data, ⟨100, 0, 0, 0, 0, 0, 0, 0⟩⟩),
        ("/v/c.md", ⟨("ccc").data, ⟨300, 0, 0, 0, 0, 0, 0, 0⟩⟩)] (fun _ _ => [])
        [⟨"/v/a.md", "a", ("aaa").data⟩, ⟨"/v/b.md", "b", ("bbb").data⟩,
         ⟨"/v/c.md", "c", ("ccc").data⟩] " ", r.score = 0 := by
  have h := searchVault_empty_query_recency
    [("/v/a.md", ⟨("aaa").data, ⟨100, 0, 0, 0, 0, 0, 0, 0⟩⟩),
     ("/v/c.md", ⟨("ccc").data, ⟨300, 0, 0, 0, 0, 0, 0, 0⟩⟩)] (fun _ _ => [])
    [⟨"/v/a.md", "a", ("aaa").data⟩, ⟨"/v/b.md", "b", ("bbb").data⟩,
     ⟨"/v/c.md", "c", ("ccc").data⟩] " " (by decide)
  exact ⟨h.2.1, fun r hr => (h.2.2.2 r hr).1⟩

/-! ### C8, C9: index cache and in-flight guard -/

/-- C8: the cache is served exactly when the cached vault path matches the
requested one and the cache age does not exceed the 5-minute TTL (first
conjunct); starting without a valid cache, a request builds and a second
request for the same path within the TTL is cache-served without building
(second conjunct); a request for a path different from the cached one never
serves the cache — it always runs a fresh build, whatever the TTL (third
conjunct). -/
theorem indexCache_ttl_and_path_keying :
    (∀ (cache : Option CacheEntry) (vp : String) (now : Int),
      isCacheValid cache vp now = true ↔
        ∃ c, cache = some c ∧ c.vaultPath = vp ∧ now - c.timestamp ≤ CACHE_TTL_MS)
    ∧ (∀ (world : String → Option (List DirEntry)) (vp : String) (t0 t1 : Int)
        (st0 : HookState) (idx : SearchIndex),
        st0.buildInProgress = false →
        isCacheValid st0.indexCache vp t0 = false →
        buildSearchIndexT vp (world vp) = Except.ok idx →
        buildIndexStep world (some vp) false t0 st0 =
          (BuildOutcome.built idx, ⟨some ⟨idx, vp, t0⟩, false⟩)
        ∧ (t1 - t0 ≤ CACHE_TTL_MS →
            buildIndexStep world (some vp) false t1 ⟨some ⟨idx, vp, t0⟩, false⟩ =
              (BuildOutcome.servedFromCache idx, ⟨some ⟨idx, vp, t0⟩, false⟩)))
    ∧ (∀ (world : String → Option (List DirEntry)) (vp2 : String) (now : Int)
        (st : HookState),
        st.buildInProgress = false →
        (∀ c, st.indexCache = some c → c.vaultPath ≠ vp2) →
        buildIndexStep world (some vp2) false now st = buildIndexRun world vp2 now st
        ∧ ((∃ i, (buildIndexRun world vp2 now st).1 = BuildOutcome.built i)
           ∨ (∃ e, (buildIndexRun world vp2 now st).1 = BuildOutcome.buildFailed e))) := by
  refine ⟨?_, ?_, ?_⟩
  · intro cache vp now
    cases cache with
    | none => simp [isCacheValid]
    | some c =>
      show (if c.vaultPath ≠ vp then false
          else if now - c.timestamp > CACHE_TTL_MS then false else true) = true ↔ _
      by_cases h1 : c.vaultPath = vp
      · by_cases h2 : now - c.timestamp > CACHE_TTL_MS
        · rw [if_neg (fun hn => hn h1), if_pos h2]
          constructor
          · intro h; exact absurd h (by simp)
          · rintro ⟨c2, hc2, hpath, httl⟩
            have := Option.some.inj hc2
            subst this
            exact absurd httl (by omega)
        · rw [if_neg (fun hn => hn h1), if_neg h2]
          constructor
          · intro _
            exact ⟨c, rfl, h1, by omega⟩
          · intro _; rfl
      · rw [if_pos h1]
        constructor
        · intro h; exact absurd h (by simp)
        · rintro ⟨c2, hc2, hpath, _⟩
          have := Option.some.inj hc2
          subst this
          exact absurd hpath h1
  · intro world vp t0 t1 st0 idx hbp hcv hbuild
    have hstep1 : buildIndexStep world (some vp) false t0 st0 =
        (BuildOutcome.built idx, ⟨some ⟨idx, vp, t0⟩, false⟩) := by
      cases hc : st0.indexCache with
      | none => simp [buildIndexStep, hc, buildIndexRun, hbp, hbuild]
      | some c =>
        rw [hc] at hcv
        simp [buildIndexStep, hc, hcv, buildIndexRun, hbp, hbuild]
    refine ⟨hstep1, ?_⟩
    intro httl
    have hvalid : isCacheValid (some ⟨idx, vp, t0⟩) vp t1 = true := by
      simp only [isCacheValid, ne_eq]
      rw [if_neg (by simp), if_neg (by simp; omega)]
    simp [buildIndexStep, hvalid]
  · intro world vp2 now st hbp hpath
    constructor
    · cases hc : st.indexCache with
      | none => simp [buildIndexStep, hc]
      | some c =>
        have hne : c.vaultPath ≠ vp2 := hpath c hc
        have hcv : isCacheValid (some c) vp2 now = false := by
          simp [isCacheValid, hne]
        simp [buildIndexStep, hc, hcv]
    · cases hb : buildSearchIndexT vp2 (world vp2) with
      | ok i =>
        exact Or.inl ⟨i, by simp [buildIndexRun, hbp, hb]⟩
      | error e =>
        exact Or.inr ⟨e, by simp [buildIndexRun, hbp, hb]⟩

/-- C8 witness: a concrete empty vault built once at time 0, cache-served at
time 100, and rebuilt for a different vault path. -/
theorem indexCache_ttl_and_path_keying_witness :
    buildIndexStep (fun _ => some []) (some "/vault") false 0 ⟨none, false⟩ =
      (BuildOutcome.built [], ⟨some ⟨[], "/vault", 0⟩, false⟩)
    ∧ buildIndexStep (fun _ => some []) (some "/vault") false 100 ⟨some ⟨[], "/vault", 0⟩, false⟩ =
        (BuildOutcome.servedFromCache [], ⟨some ⟨[], "/vault", 0⟩, false⟩)
    ∧ ((∃ i, (buildIndexRun (fun _ => some []) "/other" 100
          ⟨some ⟨[], "/vault", 0⟩, false⟩).1 = BuildOutcome.built i)
       ∨ (∃ e, (buildIndexRun (fun _ => some []) "/other" 100
          ⟨some ⟨[], "/vault", 0⟩, false⟩).1 = BuildOutcome.buildFailed e)) := by
  have h2 := indexCache_ttl_and_path_keying.2.1 (fun _ => some []) "/vault" 0 100
    ⟨none, false⟩ [] rfl (by decide) (by decide)
  have h3 := indexCache_ttl_and_path_keying.2.2 (fun _ => some []) "/other" 100
    ⟨some ⟨[], "/vault", 0⟩, false⟩ rfl (by
      intro c hc
      have := Option.some.inj hc
      subst this
      decide)
  exact ⟨h2.1, h2.2 (by decide), h3.2⟩

/-- C9 counterexample: with a build in flight and no previous cache entry, a
concurrent request returns immediately with no index at all — it neither
waits for the in-flight build's result nor is served a previous cache
entry, contrary to the claim. -/
theorem inflight_request_gets_nothing :
    buildIndexStep (fun _ => some [DirEntry.file "a.md" (some ("x").data)]) (some "/vault")
        false 0 ⟨none, true⟩ =
      (BuildOutcome.skippedInFlight, ⟨none, true⟩) := by
  decide

/-- C9 (amended): while a build is in flight, a concurrent request never
starts a second build — the hook state (cache slot and guard) is returned
unchanged — and the requester is served the cache entry when one exists and
is valid, and otherwise returns immediately with no index (it does not wait
for the in-flight build). -/
theorem inflight_no_second_build (world : String → Option (List DirEntry)) (vp : String)
    (ff : Bool) (now : Int) (st : HookState) (hbp : st.buildInProgress = true) :
    (buildIndexStep world (some vp) ff now st).2 = st
    ∧ ((buildIndexStep world (some vp) ff now st).1 = BuildOutcome.skippedInFlight
       ∨ ∃ c, st.indexCache = some c
           ∧ isCacheValid (some c) vp now = true ∧ ff = false
           ∧ (buildIndexStep world (some vp) ff now st).1 =
              BuildOutcome.servedFromCache c.index) := by
  cases hc : st.indexCache with
  | none =>
    simp [buildIndexStep, hc, buildIndexRun, hbp]
  | some c =>
    by_cases hv : (!ff && isCacheValid (some c) vp now) = true
    · have hff : ff = false := by
        cases ff
        · rfl
        · simp at hv
      have hcv : isCacheValid (some c) vp now = true := by
        cases hcv2 : isCacheValid (some c) vp now
        · rw [hcv2] at hv; simp at hv
        · rfl
      refine ⟨?_, Or.inr ⟨c, rfl, hcv, hff, ?_⟩⟩
      · simp [buildIndexStep, hc, hv]
      · simp [buildIndexStep, hc, hv]
    · have hv2 : (!ff && isCacheValid (some c) vp now) = false := by
        cases h : (!ff && isCacheValid (some c) vp now)
        · rfl
        · exact absurd h hv
      refine ⟨?_, Or.inl ?_⟩
      · simp [buildIndexStep, hc, hv2, buildIndexRun, hbp]
      · simp [buildIndexStep, hc, hv2, buildIndexRun, hbp]

/-- C9 witness: a concurrent request while a build is in flight, with a
valid cache entry present, is served that entry and changes nothing. -/
theorem inflight_no_second_build_witness :
    (buildIndexStep (fun _ => some []) (some "/vault") false 50
        ⟨some ⟨[], "/vault", 0⟩, true⟩).2 = ⟨some ⟨[], "/vault", 0⟩, true⟩
    ∧ ((buildIndexStep (fun _ => some []) (some "/vault") false 50
          ⟨some ⟨[], "/vault", 0⟩, true⟩).1 = BuildOutcome.skippedInFlight
       ∨ ∃ c, (⟨some ⟨[], "/vault", 0⟩, true⟩ : HookState).indexCache = some c
           ∧ isCacheValid (some c) "/vault" 50 = true ∧ false = false
           ∧ (buildIndexStep (fun _ => some []) (some "/vault") false 50
              ⟨some ⟨[], "/vault", 0⟩, true⟩).1 = BuildOutcome.servedFromCache c.index) :=
  inflight_no_second_build (fun _ => some []) "/vault" false 50
    ⟨some ⟨[], "/vault", 0⟩, true⟩ rfl

/-! ### C10: missing vault root fails the index build -/

/-- C10: an absent or unreadable vault root makes the index builder
propagate the directory-read error rather than producing an empty index
(first conjunct); an existing vault never makes the builder fail, whatever
its entries — per-file read failures degrade to an empty preview instead
(second conjunct, with the third exhibiting the degraded entry an
unreadable `.md` file produces). -/
theorem buildSearchIndex_missing_root_raises :
    (∀ (vaultPath : String),
      buildSearchIndexT vaultPath none =
        Except.error (SearchError.dirReadError vaultPath))
    ∧ (∀ (vaultPath : String) (entries : List DirEntry),
        ∃ idx, buildSearchIndexT vaultPath (some entries) = Except.ok idx)
    ∧ (∀ (vaultPath : String) (rest : List DirEntry),
        buildSearchIndexT vaultPath (some (DirEntry.file "a.md" none :: rest)) =
          Except.ok
            ({ path := joinPath vaultPath "a.md"
               filename := basenameSuffix (joinPath vaultPath "a.md") ".md"
               content := [] } ::
              (findMarkdownFilesList vaultPath rest).map (fun fc =>
                { path := fc.1
                  filename := basenameSuffix fc.1 ".md"
                  content := getFilePreview fc.2 }))) := by
  refine ⟨fun v => rfl, fun v entries => ⟨_, rfl⟩, fun v rest => ?_⟩
  have hentry : findMarkdownFilesEntry v (DirEntry.file "a.md" none) =
      [(joinPath v "a.md", none)] := by
    simp only [findMarkdownFilesEntry]
    rw [if_neg (by decide), if_pos (by decide)]
  simp only [buildSearchIndexT, findMarkdownFilesList, hentry, List.singleton_append,
    List.map_cons, getFilePreview]
